import Mathlib
/-!
Verification development for `transcribe.py` (py-whisper-media-transcriber).

The Python source is shallowly embedded below.  Times and durations are
modelled as rationals (the program manipulates them only through addition,
subtraction, comparison, sums and floor divisions, all exact on the inputs
considered here).  Python `str.strip()` is modelled by `pyStrip`
(dropping whitespace characters from both ends), Python `sep.join(...)`
by `pyJoin`.
-/
set_option maxRecDepth 16000
namespace Transcribe

/-! ## Definitions: the shallow embedding of `transcribe.py` -/

/-- Python `str.strip()` on the character list: drop whitespace from both ends. -/
def stripChars (l : List Char) : List Char :=
  ((l.dropWhile Char.isWhitespace).reverse.dropWhile Char.isWhitespace).reverse

/-- Python `str.strip()`. -/
def pyStrip (s : String) : String :=
  ⟨stripChars s.data⟩

/-- Python `sep.join(parts)`. -/
def pyJoin (sep : String) : List String → String
  | [] => ""
  | [a] => a
  | a :: b :: rest => a ++ sep ++ pyJoin sep (b :: rest)

/-- Does `l` start with `pat`? (helper for substring containment). -/
def startsWithChars : List Char → List Char → Bool
  | _, [] => true
  | [], _ :: _ => false
  | a :: as, b :: bs => a == b && startsWithChars as bs

/-- Does `l` contain `pat` as a contiguous substring? -/
def hasSub (pat : List Char) : List Char → Bool
  | [] => startsWithChars [] pat
  | c :: t => startsWithChars (c :: t) pat || hasSub pat t

/-- One Whisper segment: dictionary with keys `start`, `end`, `text`
(`end` is not a legal Lean identifier, hence `endTime`). -/
structure Segment where
  start : ℚ
  endTime : ℚ
  text : String
  deriving DecidableEq, Repr

/-- The `for seg in segments[1:]` loop of `build_lines_from_segments`,
with the post-loop final emission fused into the base case.
State: accumulated `lines`, the `current_line`, and `prev_end`. -/
def buildGo (pauseThreshold : ℚ) (lines : List String) (currentLine : String)
    (prevEnd : ℚ) : List Segment → List String
  | [] =>
      if pyStrip currentLine ≠ "" then lines ++ [pyStrip currentLine] else lines
  | seg :: rest =>
      -- Python: `text = seg["text"].strip()`, `gap = start - prev_end`
      if seg.start - prevEnd ≥ pauseThreshold then
        buildGo pauseThreshold
          (if pyStrip currentLine ≠ "" then lines ++ [pyStrip currentLine] else lines)
          (pyStrip seg.text) seg.endTime rest
      else
        buildGo pauseThreshold lines
          (if pyStrip seg.text ≠ "" then
            (if currentLine ≠ "" then currentLine ++ " " ++ pyStrip seg.text
             else pyStrip seg.text)
           else currentLine)
          seg.endTime rest

/-- The list `lines` that `build_lines_from_segments` joins at the end
(empty input gives no lines). -/
def buildLinesList (pauseThreshold : ℚ) : List Segment → List String
  | [] => []
  | s :: rest => buildGo pauseThreshold [] (pyStrip s.text) s.endTime rest

/-- The function `build_lines_from_segments(segments, pause_threshold)` of `transcribe.py`
(the Python default for `pause_threshold` is `2.0`). -/
def build_lines_from_segments (segments : List Segment) (pauseThreshold : ℚ) : String :=
  pyJoin "\n" (buildLinesList pauseThreshold segments)

/-- The continuation update of `current_line` in the loop of
`build_lines_from_segments` (the `else` branch). -/
def joinSp (currentLine text : String) : String :=
  if text ≠ "" then
    (if currentLine ≠ "" then currentLine ++ " " ++ text else text)
  else currentLine

/-- Reference form of the builder loop: the list of paragraph lines it will
emit, given the pending `currentLine` (assumed already stripped) and the
`prevEnd` cursor. -/
def refLines (th : ℚ) (currentLine : String) (prevEnd : ℚ) : List Segment → List String
  | [] => if currentLine ≠ "" then [currentLine] else []
  | seg :: rest =>
      if seg.start - prevEnd ≥ th then
        (if currentLine ≠ "" then [currentLine] else []) ++
          refLines th (pyStrip seg.text) seg.endTime rest
      else
        refLines th (joinSp currentLine (pyStrip seg.text)) seg.endTime rest

/-- All gaps of the segment list, measured against the running `prevEnd`
cursor seeded with `p`, are strictly below the threshold. -/
def allGapsLT (th : ℚ) : ℚ → List Segment → Prop
  | _, [] => True
  | p, s :: rest => s.start - p < th ∧ allGapsLT th s.endTime rest

def decAllGapsLT (th : ℚ) : (p : ℚ) → (l : List Segment) → Decidable (allGapsLT th p l)
  | _, [] => isTrue trivial
  | p, s :: rest =>
    haveI := decAllGapsLT th s.endTime rest
    inferInstanceAs (Decidable (s.start - p < th ∧ allGapsLT th s.endTime rest))

instance (th p : ℚ) (l : List Segment) : Decidable (allGapsLT th p l) :=
  decAllGapsLT th p l

/-- All inter-segment gaps of the list (each segment's `start` minus the
previous segment's `end`) are strictly below the threshold. -/
def gapsBelow (th : ℚ) : List Segment → Prop
  | [] => True
  | s :: rest => allGapsLT th s.endTime rest

instance (th : ℚ) (l : List Segment) : Decidable (gapsBelow th l) := by
  cases l with
  | nil => exact isTrue trivial
  | cons s rest => exact decAllGapsLT th s.endTime rest

/-- The value of the `prev_end` cursor after traversing `l`, starting from `p`. -/
def lastEnd (p : ℚ) : List Segment → ℚ
  | [] => p
  | s :: rest => lastEnd s.endTime rest

/-- One entry of `all_text_parts`: the Python f-string
`header = "\n\n===== PLIK: " + name + " =====\n\n"` followed by `text.strip()`. -/
def textPart (name text : String) : String :=
  "\n\n===== PLIK: " ++ name ++ " =====\n\n" ++ pyStrip text

/-- Line 238: `final_text = "".join(all_text_parts).strip() + "\n"`, where `outcomes` is
the list of (file name, builder text) pairs in worklist order. -/
def assemble_final_text (outcomes : List (String × String)) : String :=
  pyStrip (pyJoin "" (outcomes.map fun o => textPart o.1 o.2)) ++ "\n"

/-- A header-plus-text block as it appears in the final document. -/
def fileBlock (name text : String) : String :=
  "===== PLIK: " ++ name ++ " =====\n\n" ++ pyStrip text

/-- A `datetime.datetime` value at second precision. -/
structure PyDateTime where
  year : ℕ
  month : ℕ
  day : ℕ
  hour : ℕ
  minute : ℕ
  second : ℕ
  deriving DecidableEq, Repr

def isLeapYear (y : ℕ) : Bool :=
  y % 4 == 0 && (y % 100 != 0 || y % 400 == 0)

def daysInMonth (y m : ℕ) : ℕ :=
  if m = 2 then (if isLeapYear y then 29 else 28)
  else if m = 4 ∨ m = 6 ∨ m = 9 ∨ m = 11 then 30
  else 31

def allDigits (l : List Char) : Bool :=
  l.all Char.isDigit

def digitsToNat (l : List Char) : ℕ :=
  l.foldl (fun a c => a * 10 + (c.toNat - 48)) 0

/-- Field `%Y` in `_strptime`: exactly four digits; the `datetime` constructor
additionally requires `year ≥ 1` (`MINYEAR`). -/
def parseY (l : List Char) : Option ℕ :=
  if l.length = 4 ∧ allDigits l ∧ 1 ≤ digitsToNat l then some (digitsToNat l) else none

/-- A one-or-two digit numeric field with an inclusive value range, matching
the `_strptime` regexes for `%m` (1..12), `%d` (1..31), `%H` (0..23) and
`%M`/`%S` (0..59). -/
def parseField (lo hi : ℕ) (l : List Char) : Option ℕ :=
  if (l.length = 1 ∨ l.length = 2) ∧ allDigits l
      ∧ lo ≤ digitsToNat l ∧ digitsToNat l ≤ hi
  then some (digitsToNat l) else none

/-- Python `str.split(sep)` for a single-character separator. -/
def splitOnChar (sep : Char) : List Char → List (List Char)
  | [] => [[]]
  | c :: t =>
      if c = sep then [] :: splitOnChar sep t
      else
        match splitOnChar sep t with
        | [] => [[c]]
        | h :: r => (c :: h) :: r

def parseDatePart (l : List Char) : Option (ℕ × ℕ × ℕ) :=
  match splitOnChar (Char.ofNat 45) l with
  | [y, m, d] =>
    match parseY y, parseField 1 12 m, parseField 1 31 d with
    | some yn, some mn, some dn => some (yn, mn, dn)
    | _, _, _ => none
  | _ => none

def parseTimePart (l : List Char) : Option (ℕ × ℕ × ℕ) :=
  match splitOnChar (Char.ofNat 45) l with
  | [h, mi, sec] =>
    match parseField 0 23 h, parseField 0 59 mi, parseField 0 59 sec with
    | some hn, some min, some sn => some (hn, min, sn)
    | _, _, _ => none
  | _ => none

/-- The `datetime(...)` constructor validation of the day against the month
(the field regexes already bound the other components). -/
def datetimeOfParts (dp tp : ℕ × ℕ × ℕ) : Option PyDateTime :=
  if dp.2.2 ≤ daysInMonth dp.1 dp.2.1 then
    some ⟨dp.1, dp.2.1, dp.2.2, tp.1, tp.2.1, tp.2.2⟩
  else none

/-- Python `datetime.strptime(stem, "%Y-%m-%d %H-%M-%S")`.  A literal space in the
format matches a non-empty whitespace run (`_strptime` rewrites whitespace
to `\s+`), and the match must cover the whole stem. -/
def tryParseSpaceFmt (stem : String) : Option PyDateTime :=
  let a := stem.data.takeWhile (fun c => !c.isWhitespace)
  let r := stem.data.dropWhile (fun c => !c.isWhitespace)
  let b := r.dropWhile Char.isWhitespace
  if r ≠ [] ∧ b.all (fun c => !c.isWhitespace) then
    match parseDatePart a, parseTimePart b with
    | some dp, some tp => datetimeOfParts dp tp
    | _, _ => none
  else none

/-- Python `datetime.strptime(stem, "%Y-%m-%d_%H-%M-%S")`. -/
def tryParseUnderscoreFmt (stem : String) : Option PyDateTime :=
  match splitOnChar (Char.ofNat 95) stem.data with
  | [d, t] =>
    match parseDatePart d, parseTimePart t with
    | some dp, some tp => datetimeOfParts dp tp
    | _, _ => none
  | _ => none

/-- The function `parse_datetime_from_stem` of `transcribe.py`: try
`"%Y-%m-%d %H-%M-%S"` then `"%Y-%m-%d_%H-%M-%S"`, `None` when both fail. -/
def parse_datetime_from_stem (stem : String) : Option PyDateTime :=
  match tryParseSpaceFmt stem with
  | some d => some d
  | none => tryParseUnderscoreFmt stem

/-- Zero-pad the decimal representation of `n` to `width` characters. -/
def padNum (width n : ℕ) : String :=
  ⟨List.replicate (width - (Nat.repr n).data.length) (Char.ofNat 48)⟩ ++ Nat.repr n

/-- Python `dt.strftime("%Y-%m-%d %H-%M-%S")`. -/
def strftimeYmdHMS (d : PyDateTime) : String :=
  padNum 4 d.year ++ "-" ++ padNum 2 d.month ++ "-" ++ padNum 2 d.day ++ " "
    ++ padNum 2 d.hour ++ "-" ++ padNum 2 d.minute ++ "-" ++ padNum 2 d.second

def nextDay : ℕ × ℕ × ℕ → ℕ × ℕ × ℕ
  | (y, m, d) =>
      if d < daysInMonth y m then (y, m, d + 1)
      else if m < 12 then (y, m + 1, 1)
      else (y + 1, 1, 1)

def addDays : ℕ → ℕ × ℕ × ℕ → ℕ × ℕ × ℕ
  | 0, x => x
  | n + 1, x => addDays n (nextDay x)

/-- Python `dt + timedelta(seconds=s)` for a whole number of seconds `s`
(the measured durations are nonnegative; `strftime` displays whole seconds). -/
def addSeconds (dt : PyDateTime) (s : ℕ) : PyDateTime :=
  let totalSec := dt.second + s
  let totalMin := dt.minute + totalSec / 60
  let totalHour := dt.hour + totalMin / 60
  let ymd := addDays (totalHour / 24) (dt.year, dt.month, dt.day)
  ⟨ymd.1, ymd.2.1, ymd.2.2, totalHour % 24, totalMin % 60, totalSec % 60⟩

/-- The whole number of seconds in a nonnegative duration. -/
def floorSeconds (q : ℚ) : ℕ :=
  (Int.floor q).toNat

/-- Python `f"{n:02d}"`. -/
def pyFmt02 (n : ℤ) : String :=
  if 0 ≤ n then padNum 2 n.toNat else "-" ++ Nat.repr (-n).toNat

/-- The batch-mode output file name (`main`, lines 241-266).  `clock` is the
ambient wall-clock datetime available to a run and `modelArg` the `--model`
argument value; the source consults neither when building the name. -/
def deriveBatchName (clock : PyDateTime) (modelArg : String)
    (firstStem lastStem : String) (durations : List ℚ) : String :=
  let total := durations.sum
  let totalHours : ℤ := Int.floor (total / 3600)
  let totalMinutes : ℤ := Int.floor ((total - 3600 * (totalHours : ℚ)) / 60)
  let start_dt := parse_datetime_from_stem firstStem
  let end_dt := (parse_datetime_from_stem lastStem).map
    (fun d => addSeconds d (floorSeconds (durations.getLastD 0)))
  match start_dt, end_dt with
  | some s, some e => strftimeYmdHMS s ++ "__" ++ strftimeYmdHMS e ++ "_medium.txt"
  | _, _ =>
      firstStem ++ "_len_" ++ pyFmt02 totalHours ++ "h" ++ pyFmt02 totalMinutes
        ++ "m_medium.txt"

/-- The constant `VIDEO_EXTENSIONS` of `transcribe.py`. -/
def VIDEO_EXTENSIONS : List String :=
  [".mp4", ".mkv", ".avi", ".mov", ".flv", ".wmv", ".mpg", ".mpeg", ".m4v", ".webm"]

/-- Python `str.lower()` (the compared extensions are ASCII). -/
def pyLower (s : String) : String :=
  ⟨s.data.map Char.toLower⟩

/-- Python `pathlib.PurePath.suffix`: the part of the name from its last dot on,
empty when there is no dot, the dot is the first character, or the dot is
the last character (`i = name.rfind('.'); name[i:] if 0 < i < len(name) - 1`). -/
def pathSuffix (name : String) : String :=
  match name.data.reverse.findIdx? (fun c => c = Char.ofNat 46) with
  | none => ""
  | some j =>
      let i := name.data.length - 1 - j
      if 0 < i ∧ i < name.data.length - 1 then ⟨name.data.drop i⟩ else ""

/-- The function `is_media_file` (lines 25-27): `path.is_file() and path.suffix.lower()
in VIDEO_EXTENSIONS`.  Input files and directory entries are regular files
in this model, so only the extension test remains. -/
def is_media_file (name : String) : Bool :=
  VIDEO_EXTENSIONS.contains (pyLower (pathSuffix name))

/-- The failure modes of a run, under the names the spec gives them
(`FileNotFoundError` and the three `ValueError` sites in `main`, plus an
engine failure raised inside `transcribe_file`). -/
inductive RunError where
  | invalidPath
  | unsupportedFileKind
  | noMediaFound
  | engineFailure
  deriving DecidableEq, Repr

/-- What the input path names on the filesystem. -/
inductive PathKind where
  | file (name : String)
  | directory (entries : List String)
  | missing
  | other

/-- Lines 171-189 of `main`: existence check, single-file extension check,
directory listing filtered by `is_media_file` and sorted by lower-cased name,
empty-directory check.  Returns (worklist, is_directory_mode). -/
def selectWorklist (kind : PathKind) : Except RunError (List String × Bool) :=
  match kind with
  | .missing => .error .invalidPath
  | .file name =>
      if is_media_file name then .ok ([name], false)
      else .error .unsupportedFileKind
  | .directory entries =>
      let files := (entries.filter is_media_file).mergeSort
        (fun a b => decide (pyLower a ≤ pyLower b))
      if files = [] then .error .noMediaFound else .ok (files, true)
  | .other => .error .invalidPath

/-- The per-file loop of `main` (lines 220-236): call the engine once per
file in worklist order (`transcribe_file`; `none` models an engine failure,
which aborts the whole run), build the line-structured text, and collect
texts and measured durations in order. -/
def transcribeAll (oracle : String → Option (List Segment × ℚ)) (th : ℚ) :
    List String → Except RunError (List (String × String) × List ℚ)
  | [] => .ok ([], [])
  | f :: rest =>
      match oracle f with
      | none => .error .engineFailure
      | some (segs, dur) =>
          match transcribeAll oracle th rest with
          | .error e => .error e
          | .ok (outs, durs) =>
              .ok ((f, build_lines_from_segments segs th) :: outs, dur :: durs)

/-- Python `pathlib.PurePath.stem`: the name without its (final) suffix. -/
def stemOf (name : String) : String :=
  ⟨name.data.take (name.data.length - (pathSuffix name).data.length)⟩

/-- Line 212: `input_path.with_suffix(".txt")` for the single-file output default. -/
def withSuffixTxt (path : String) : String :=
  stemOf path ++ ".txt"

/-- The command-line arguments that influence the modelled behaviour
(`--language` only reaches the engine oracle; `--device` only device
selection, neither affects the modelled logic). -/
structure Args where
  input : String
  output : Option String
  modelArg : String
  pauseThreshold : ℚ

/-- A whole run of `main`: worklist selection, per-file transcription,
assembly, output-path resolution.  `.ok (path, text)` is the single write
the program performs; every fatal error yields `.error` and writes nothing. -/
def run (kind : PathKind) (oracle : String → Option (List Segment × ℚ))
    (clock : PyDateTime) (args : Args) : Except RunError (String × String) :=
  match selectWorklist kind with
  | .error e => .error e
  | .ok (files, isDirectoryMode) =>
      match transcribeAll oracle args.pauseThreshold files with
      | .error e => .error e
      | .ok (outcomes, durations) =>
          let finalText := assemble_final_text outcomes
          let outPath :=
            match args.output with
            | some o => o
            | none =>
                if isDirectoryMode then
                  deriveBatchName clock args.modelArg (stemOf (files.headD ""))
                    (stemOf (files.getLastD "")) durations
                else withSuffixTxt args.input
          .ok (outPath, finalText)

/-! ## Theorems -/

theorem data_inj {a b : String} (h : a.data = b.data) : a = b := by
  cases a; cases b; exact congrArg String.mk h

theorem length_stripChars_le (l : List Char) : (stripChars l).length ≤ l.length := by
  unfold stripChars
  calc ((l.dropWhile Char.isWhitespace).reverse.dropWhile Char.isWhitespace).reverse.length
      = ((l.dropWhile Char.isWhitespace).reverse.dropWhile Char.isWhitespace).length := by
        rw [List.length_reverse]
    _ ≤ (l.dropWhile Char.isWhitespace).reverse.length :=
        (List.dropWhile_sublist _).length_le
    _ = (l.dropWhile Char.isWhitespace).length := by rw [List.length_reverse]
    _ ≤ l.length := (List.dropWhile_sublist _).length_le

theorem dropWhile_eq_self_of_stripChars_eq_self {l : List Char}
    (h : stripChars l = l) : l.dropWhile Char.isWhitespace = l := by
  apply (List.dropWhile_suffix _).eq_of_length
  have h1 : l.length ≤ ((l.dropWhile Char.isWhitespace).reverse.dropWhile
      Char.isWhitespace).reverse.length := by
    rw [show ((l.dropWhile Char.isWhitespace).reverse.dropWhile
      Char.isWhitespace).reverse = l from h]
  have h2 : ((l.dropWhile Char.isWhitespace).reverse.dropWhile
      Char.isWhitespace).reverse.length ≤ (l.dropWhile Char.isWhitespace).length := by
    rw [List.length_reverse]
    calc ((l.dropWhile Char.isWhitespace).reverse.dropWhile Char.isWhitespace).length
        ≤ (l.dropWhile Char.isWhitespace).reverse.length :=
          (List.dropWhile_sublist _).length_le
      _ = (l.dropWhile Char.isWhitespace).length := by rw [List.length_reverse]
  have h3 : (l.dropWhile Char.isWhitespace).length ≤ l.length :=
    (List.dropWhile_sublist _).length_le
  omega

theorem reverse_dropWhile_eq_self_of_stripChars_eq_self {l : List Char}
    (h : stripChars l = l) : l.reverse.dropWhile Char.isWhitespace = l.reverse := by
  have h0 := dropWhile_eq_self_of_stripChars_eq_self h
  have : stripChars l = (l.reverse.dropWhile Char.isWhitespace).reverse := by
    unfold stripChars; rw [h0]
  rw [h] at this
  rw [← List.reverse_inj, List.reverse_reverse]
  exact this.symm

theorem head_not_ws_of_dropWhile_eq_self {l : List Char}
    (h : l.dropWhile Char.isWhitespace = l) (hne : l ≠ []) :
    (l.head hne).isWhitespace = false := by
  cases l with
  | nil => exact absurd rfl hne
  | cons a t =>
    by_cases hp : a.isWhitespace
    · exfalso
      rw [List.dropWhile_cons_of_pos hp] at h
      have := (List.dropWhile_sublist (l := t) Char.isWhitespace).length_le
      rw [h] at this
      simp at this
    · simpa using hp

theorem stripChars_eq_self_of_ends {l : List Char}
    (h1 : ∀ c, l.head? = some c → c.isWhitespace = false)
    (h2 : ∀ c, l.getLast? = some c → c.isWhitespace = false) :
    stripChars l = l := by
  have d1 : l.dropWhile Char.isWhitespace = l := by
    cases l with
    | nil => rfl
    | cons a t =>
      have := h1 a rfl
      rw [List.dropWhile_cons_of_neg (by simp [this])]
  have d2 : l.reverse.dropWhile Char.isWhitespace = l.reverse := by
    cases hrev : l.reverse with
    | nil => rfl
    | cons a t =>
      have ha : l.getLast? = some a := by
        rw [← List.head?_reverse, hrev]; rfl
      have := h2 a ha
      rw [List.dropWhile_cons_of_neg (by simp [this])]
  unfold stripChars
  rw [d1, d2, List.reverse_reverse]

theorem getLast_not_ws_of_stripChars_eq_self {l : List Char}
    (h : stripChars l = l) (hne : l ≠ []) :
    ∀ c, l.getLast? = some c → c.isWhitespace = false := by
  intro c hc
  have h0 := reverse_dropWhile_eq_self_of_stripChars_eq_self h
  have hrne : l.reverse ≠ [] := by simpa using hne
  have := head_not_ws_of_dropWhile_eq_self h0 hrne
  rwa [show l.reverse.head hrne = c by
    have : l.reverse.head? = some c := by rw [List.head?_reverse]; exact hc
    rw [List.head?_eq_head] at this
    exact Option.some.inj this] at this

theorem head_not_ws_of_stripChars_eq_self {l : List Char}
    (h : stripChars l = l) (hne : l ≠ []) :
    ∀ c, l.head? = some c → c.isWhitespace = false := by
  intro c hc
  have h0 := dropWhile_eq_self_of_stripChars_eq_self h
  have := head_not_ws_of_dropWhile_eq_self h0 hne
  rwa [show l.head hne = c by
    rw [List.head?_eq_head] at hc
    exact Option.some.inj hc] at this

theorem head?_stripChars_not_ws (l : List Char) :
    ∀ c, (stripChars l).head? = some c → c.isWhitespace = false := by
  intro c hc
  unfold stripChars at hc
  rw [List.head?_reverse] at hc
  rcases hx : ((l.dropWhile Char.isWhitespace).reverse.dropWhile Char.isWhitespace) with
    _ | ⟨a, t⟩
  · rw [hx] at hc; simp at hc
  · have hne : (l.dropWhile Char.isWhitespace).reverse.dropWhile Char.isWhitespace ≠ [] := by
      rw [hx]; simp
    have hlast : ((l.dropWhile Char.isWhitespace).reverse.dropWhile
        Char.isWhitespace).getLast? = some c := hc
    -- the last element of the doubly-processed list lies in the suffix of
    -- `(l.dropWhile _).reverse`, whose last element is the head of `l.dropWhile _`
    have hsuf : (l.dropWhile Char.isWhitespace).reverse.dropWhile Char.isWhitespace <:+
        (l.dropWhile Char.isWhitespace).reverse := List.dropWhile_suffix _
    obtain ⟨u, hu⟩ := hsuf
    have : (l.dropWhile Char.isWhitespace).reverse.getLast? = some c := by
      rw [← hu, List.getLast?_append_of_ne_nil _ hne, hlast]
    rw [List.getLast?_reverse] at this
    have hbne : l.dropWhile Char.isWhitespace ≠ [] := by
      intro h0; rw [h0] at this; simp at this
    have hnw := head_not_ws_of_dropWhile_eq_self (l := l.dropWhile Char.isWhitespace)
      (List.dropWhile_idempotent _ _) hbne
    rw [List.head?_eq_head hbne] at this
    rwa [Option.some.inj this] at hnw

theorem getLast?_stripChars_not_ws (l : List Char) :
    ∀ c, (stripChars l).getLast? = some c → c.isWhitespace = false := by
  intro c hc
  unfold stripChars at hc
  rw [List.getLast?_reverse] at hc
  rcases hx : ((l.dropWhile Char.isWhitespace).reverse.dropWhile Char.isWhitespace) with
    _ | ⟨a, t⟩
  · rw [hx] at hc; simp at hc
  · have hne : (l.dropWhile Char.isWhitespace).reverse.dropWhile Char.isWhitespace ≠ [] := by
      rw [hx]; simp
    have := head_not_ws_of_dropWhile_eq_self
      (l := (l.dropWhile Char.isWhitespace).reverse.dropWhile Char.isWhitespace)
      (by rw [List.dropWhile_idempotent]) hne
    rw [List.head?_eq_head hne] at hc
    rwa [Option.some.inj hc] at this

theorem stripChars_idem (l : List Char) : stripChars (stripChars l) = stripChars l :=
  stripChars_eq_self_of_ends (head?_stripChars_not_ws l) (getLast?_stripChars_not_ws l)

theorem pyStrip_idem (s : String) : pyStrip (pyStrip s) = pyStrip s := by
  apply data_inj
  exact stripChars_idem s.data

theorem pyStrip_eq_self_iff {s : String} : pyStrip s = s ↔ stripChars s.data = s.data :=
  ⟨fun h => congrArg String.data h, fun h => data_inj h⟩

theorem eq_empty_iff_data {s : String} : s = "" ↔ s.data = [] :=
  ⟨fun h => h ▸ rfl, fun h => data_inj h⟩

theorem stripChars_ws_left {p l : List Char} (hp : ∀ c ∈ p, c.isWhitespace = true) :
    stripChars (p ++ l) = stripChars l := by
  unfold stripChars
  rw [List.dropWhile_append_of_pos hp]

theorem stripChars_append_of_fixed {a b : List Char} (m : List Char)
    (ha : stripChars a = a) (hb : stripChars b = b) (hna : a ≠ []) (hnb : b ≠ []) :
    stripChars (a ++ (m ++ b)) = a ++ (m ++ b) := by
  apply stripChars_eq_self_of_ends
  · intro c hc
    rcases a with _ | ⟨x, t⟩
    · exact absurd rfl hna
    · have hx : c = x := by simpa using hc.symm
      exact hx ▸ head_not_ws_of_stripChars_eq_self ha hna x rfl
  · intro c hc
    rw [List.getLast?_append_of_ne_nil _ (by simp [hnb] : m ++ b ≠ []),
        List.getLast?_append_of_ne_nil _ hnb] at hc
    exact getLast_not_ws_of_stripChars_eq_self hb hnb c hc

theorem pyStrip_joinSp {c t : String} (hc : pyStrip c = c) (ht : pyStrip t = t) :
    pyStrip (joinSp c t) = joinSp c t := by
  unfold joinSp
  by_cases h1 : t = ""
  · simp [h1, hc]
  · by_cases h2 : c = ""
    · simp [h1, h2, ht]
    · simp only [h1, h2, if_true, ne_eq, not_false_iff, if_pos]
      rw [pyStrip_eq_self_iff]
      have : (c ++ " " ++ t).data = c.data ++ ([' '] ++ t.data) := by
        simp [String.data_append, List.append_assoc]
      rw [this]
      have := stripChars_append_of_fixed (a := c.data) (b := t.data) [' ']
        (pyStrip_eq_self_iff.mp hc) (pyStrip_eq_self_iff.mp ht)
        (fun h => h2 (eq_empty_iff_data.mpr h)) (fun h => h1 (eq_empty_iff_data.mpr h))
      rw [show [' '] ++ t.data = (' ' :: t.data) from rfl] at this ⊢
      exact this

theorem buildGo_eq_refLines (th : ℚ) :
    ∀ (rest : List Segment) (lines : List String) (c : String) (p : ℚ),
      pyStrip c = c → buildGo th lines c p rest = lines ++ refLines th c p rest := by
  intro rest
  induction rest with
  | nil =>
    intro lines c p hc
    show (if pyStrip c ≠ "" then lines ++ [pyStrip c] else lines)
      = lines ++ (if c ≠ "" then [c] else [])
    rw [hc]
    by_cases h : c = "" <;> simp [h]
  | cons seg rest ih =>
    intro lines c p hc
    show (if seg.start - p ≥ th then _ else _) = lines ++ (if seg.start - p ≥ th then _ else _)
    by_cases hgap : seg.start - p ≥ th
    · rw [if_pos hgap, if_pos hgap, hc]
      rw [ih _ (pyStrip seg.text) seg.endTime (pyStrip_idem _)]
      by_cases h : c = "" <;> simp [h, List.append_assoc]
    · rw [if_neg hgap, if_neg hgap]
      rw [show (if pyStrip seg.text ≠ "" then
            (if c ≠ "" then c ++ " " ++ pyStrip seg.text else pyStrip seg.text)
          else c) = joinSp c (pyStrip seg.text) from rfl]
      exact ih _ _ seg.endTime (pyStrip_joinSp hc (pyStrip_idem _))

theorem buildLinesList_eq_refLines (th : ℚ) (s : Segment) (rest : List Segment) :
    buildLinesList th (s :: rest) = refLines th (pyStrip s.text) s.endTime rest := by
  show buildGo th [] (pyStrip s.text) s.endTime rest = _
  rw [buildGo_eq_refLines th rest [] (pyStrip s.text) s.endTime (pyStrip_idem _)]
  simp

theorem str_append_assoc (a b c : String) : (a ++ b) ++ c = a ++ (b ++ c) :=
  data_inj (by simp [String.data_append, List.append_assoc])

theorem lastEnd_eq_getLast :
    ∀ (l : List Segment) (p : ℚ) (h : l ≠ []), lastEnd p l = (l.getLast h).endTime := by
  intro l
  induction l with
  | nil => intro p h; exact absurd rfl h
  | cons s t ih =>
    intro p h
    cases t with
    | nil => rfl
    | cons y u =>
      show lastEnd s.endTime (y :: u) = _
      rw [ih s.endTime (by simp)]
      exact congrArg Segment.endTime (List.getLast_cons (by simp)).symm

theorem refLines_append_of_allGapsLT (th : ℚ) :
    ∀ (l : List Segment) (c : String) (p : ℚ) (rest : List Segment),
      allGapsLT th p l →
      refLines th c p (l ++ rest)
        = refLines th (List.foldl joinSp c (l.map fun s => pyStrip s.text))
            (lastEnd p l) rest := by
  intro l
  induction l with
  | nil => intro c p rest _; rfl
  | cons s t ih =>
    intro c p rest hg
    obtain ⟨h1, h2⟩ := hg
    show refLines th c p (s :: (t ++ rest)) = _
    rw [show refLines th c p (s :: (t ++ rest))
        = if s.start - p ≥ th then
            (if c ≠ "" then [c] else []) ++ refLines th (pyStrip s.text) s.endTime (t ++ rest)
          else refLines th (joinSp c (pyStrip s.text)) s.endTime (t ++ rest) from rfl]
    rw [if_neg (by exact not_le.mpr h1)]
    exact ih (joinSp c (pyStrip s.text)) s.endTime rest h2

theorem refLines_nil (th : ℚ) (c : String) (p : ℚ) :
    refLines th c p [] = if c ≠ "" then [c] else [] := rfl

theorem refLines_break (th : ℚ) (c : String) (p : ℚ) (b : Segment) (rest : List Segment)
    (h : b.start - p ≥ th) :
    refLines th c p (b :: rest)
      = (if c ≠ "" then [c] else []) ++ refLines th (pyStrip b.text) b.endTime rest := by
  rw [show refLines th c p (b :: rest)
      = if b.start - p ≥ th then
          (if c ≠ "" then [c] else []) ++ refLines th (pyStrip b.text) b.endTime rest
        else refLines th (joinSp c (pyStrip b.text)) b.endTime rest from rfl]
  rw [if_pos h]

theorem append_ne_empty_right (a b : String) (h : b ≠ "") : a ++ b ≠ "" := by
  intro h0
  apply h
  rw [eq_empty_iff_data] at h0 ⊢
  rw [String.data_append] at h0
  exact (List.append_eq_nil.mp h0).2

theorem pyJoin_shift (sep x y : String) (l : List String) :
    pyJoin sep ((x ++ sep ++ y) :: l) = pyJoin sep (x :: y :: l) := by
  cases l with
  | nil => rfl
  | cons z t =>
    show (x ++ sep ++ y) ++ sep ++ pyJoin sep (z :: t)
      = x ++ sep ++ ((y ++ sep ++ pyJoin sep (z :: t)))
    simp only [str_append_assoc]

theorem foldl_joinSp_eq_pyJoin :
    ∀ (l : List String) (c : String),
      List.foldl joinSp c l = pyJoin " " ((c :: l).filter (fun x => x ≠ "")) := by
  intro l
  induction l with
  | nil =>
    intro c
    by_cases h : c = ""
    · simp [h, pyJoin]
    · simp [h, pyJoin]
  | cons b t ih =>
    intro c
    show List.foldl joinSp (joinSp c b) t = _
    rw [ih (joinSp c b)]
    by_cases hb : b = ""
    · have hcb : joinSp c b = c := by simp [joinSp, hb]
      rw [hcb, hb]
      congr 1
    · by_cases hc : c = ""
      · have hcb : joinSp c b = b := by simp [joinSp, hb, hc]
        rw [hcb, hc]
        congr 1
      · have hj : joinSp c b = c ++ " " ++ b := by simp [joinSp, hb, hc]
        have hjne : c ++ " " ++ b ≠ "" := append_ne_empty_right _ _ hb
        rw [hj]
        rw [show ((c ++ " " ++ b) :: t).filter (fun x => x ≠ "")
            = (c ++ " " ++ b) :: t.filter (fun x => x ≠ "") by simp [hjne]]
        rw [show (c :: b :: t).filter (fun x => x ≠ "")
            = c :: b :: t.filter (fun x => x ≠ "") by simp [hb, hc]]
        exact pyJoin_shift " " c b _

theorem mem_of_mem_stripChars {x : Char} {l : List Char} (h : x ∈ stripChars l) : x ∈ l := by
  unfold stripChars at h
  rw [List.mem_reverse] at h
  have h1 := (List.dropWhile_sublist (l := (l.dropWhile Char.isWhitespace).reverse)
    Char.isWhitespace).subset h
  rw [List.mem_reverse] at h1
  exact (List.dropWhile_sublist (l := l) Char.isWhitespace).subset h1

theorem mem_pyStrip_data {x : Char} {s : String} (h : x ∈ (pyStrip s).data) : x ∈ s.data :=
  mem_of_mem_stripChars h

theorem mem_joinSp_data {x : Char} {a b : String} (h : x ∈ (joinSp a b).data) :
    x ∈ a.data ∨ x ∈ b.data ∨ x = ' ' := by
  unfold joinSp at h
  by_cases h1 : b = ""
  · rw [if_neg (by simp [h1])] at h
    exact Or.inl h
  · by_cases h2 : a = ""
    · rw [if_pos (by simp [h1]), if_neg (by simp [h2])] at h
      exact Or.inr (Or.inl h)
    · rw [if_pos (by simp [h1]), if_pos (by simp [h2])] at h
      rw [String.data_append, String.data_append] at h
      rcases List.mem_append.mp h with h3 | h3
      · rcases List.mem_append.mp h3 with h4 | h4
        · exact Or.inl h4
        · exact Or.inr (Or.inr (by simpa using h4))
      · exact Or.inr (Or.inl h3)

theorem refLines_mem (th : ℚ) :
    ∀ (l : List Segment) (c : String) (p : ℚ), pyStrip c = c →
      ∀ x ∈ refLines th c p l, x ≠ "" ∧ pyStrip x = x := by
  intro l
  induction l with
  | nil =>
    intro c p hc x hx
    rw [refLines_nil] at hx
    by_cases h : c = ""
    · rw [if_neg (by simpa using h)] at hx
      simp at hx
    · rw [if_pos (by simpa using h)] at hx
      rcases List.mem_singleton.mp hx with rfl
      exact ⟨h, hc⟩
  | cons seg rest ih =>
    intro c p hc x hx
    by_cases hgap : seg.start - p ≥ th
    · rw [refLines_break th c p seg rest hgap] at hx
      rcases List.mem_append.mp hx with h1 | h1
      · by_cases h : c = ""
        · rw [if_neg (by simpa using h)] at h1
          simp at h1
        · rw [if_pos (by simpa using h)] at h1
          rcases List.mem_singleton.mp h1 with rfl
          exact ⟨h, hc⟩
      · exact ih (pyStrip seg.text) seg.endTime (pyStrip_idem _) x h1
    · rw [show refLines th c p (seg :: rest)
          = refLines th (joinSp c (pyStrip seg.text)) seg.endTime rest by
        rw [show refLines th c p (seg :: rest)
            = if seg.start - p ≥ th then
                (if c ≠ "" then [c] else []) ++
                  refLines th (pyStrip seg.text) seg.endTime rest
              else refLines th (joinSp c (pyStrip seg.text)) seg.endTime rest from rfl]
        rw [if_neg hgap]] at hx
      exact ih _ seg.endTime (pyStrip_joinSp hc (pyStrip_idem _)) x hx

theorem refLines_no_newline (th : ℚ) :
    ∀ (l : List Segment) (c : String) (p : ℚ),
      (Char.ofNat 10) ∉ c.data → (∀ s ∈ l, (Char.ofNat 10) ∉ s.text.data) →
      ∀ x ∈ refLines th c p l, (Char.ofNat 10) ∉ x.data := by
  intro l
  induction l with
  | nil =>
    intro c p hc _ x hx
    rw [refLines_nil] at hx
    by_cases h : c = ""
    · rw [if_neg (by simpa using h)] at hx
      simp at hx
    · rw [if_pos (by simpa using h)] at hx
      rcases List.mem_singleton.mp hx with rfl
      exact hc
  | cons seg rest ih =>
    intro c p hc hseg x hx
    have hstext : (Char.ofNat 10) ∉ (pyStrip seg.text).data := fun hmem =>
      hseg seg (by simp) (mem_pyStrip_data hmem)
    have hrest : ∀ s ∈ rest, (Char.ofNat 10) ∉ s.text.data := fun s hs =>
      hseg s (by simp [hs])
    by_cases hgap : seg.start - p ≥ th
    · rw [refLines_break th c p seg rest hgap] at hx
      rcases List.mem_append.mp hx with h1 | h1
      · by_cases h : c = ""
        · rw [if_neg (by simpa using h)] at h1
          simp at h1
        · rw [if_pos (by simpa using h)] at h1
          rcases List.mem_singleton.mp h1 with rfl
          exact hc
      · exact ih (pyStrip seg.text) seg.endTime hstext hrest x h1
    · rw [show refLines th c p (seg :: rest)
          = refLines th (joinSp c (pyStrip seg.text)) seg.endTime rest by
        rw [show refLines th c p (seg :: rest)
            = if seg.start - p ≥ th then
                (if c ≠ "" then [c] else []) ++
                  refLines th (pyStrip seg.text) seg.endTime rest
              else refLines th (joinSp c (pyStrip seg.text)) seg.endTime rest from rfl]
        rw [if_neg hgap]] at hx
      have hjoin : (Char.ofNat 10) ∉ (joinSp c (pyStrip seg.text)).data := by
        intro hmem
        rcases mem_joinSp_data hmem with h1 | h1 | h1
        · exact hc h1
        · exact hstext h1
        · exact absurd h1 (by decide)
      exact ih _ seg.endTime hjoin hrest x hx

theorem pyJoin_cons_data_ne_nil (sep b : String) (t : List String) (hb : b ≠ "") :
    (pyJoin sep (b :: t)).data ≠ [] := by
  cases t with
  | nil =>
    show b.data ≠ []
    exact fun h => hb (eq_empty_iff_data.mpr h)
  | cons z u =>
    show (b ++ sep ++ pyJoin sep (z :: u)).data ≠ []
    rw [String.data_append, String.data_append]
    intro h
    rcases List.append_eq_nil.mp h with ⟨h1, _⟩
    rcases List.append_eq_nil.mp h1 with ⟨h2, _⟩
    exact hb (eq_empty_iff_data.mpr h2)

theorem pyJoin_getLast_not_ws :
    ∀ (lines : List String), (∀ s ∈ lines, s ≠ "" ∧ pyStrip s = s) →
      ∀ ch, (pyJoin "\n" lines).data.getLast? = some ch → ch.isWhitespace = false := by
  intro lines
  induction lines with
  | nil =>
    intro _ ch hch
    exact absurd hch (by simp [pyJoin])
  | cons a t ih =>
    intro hall ch hch
    cases t with
    | nil =>
      obtain ⟨hne, hfix⟩ := hall a (by simp)
      exact getLast_not_ws_of_stripChars_eq_self (pyStrip_eq_self_iff.mp hfix)
        (fun h => hne (eq_empty_iff_data.mpr h)) ch hch
    | cons b u =>
      obtain ⟨hbne, _⟩ := hall b (by simp)
      rw [show pyJoin "\n" (a :: b :: u) = a ++ "\n" ++ pyJoin "\n" (b :: u) from rfl,
        String.data_append, String.data_append,
        List.getLast?_append_of_ne_nil _ (pyJoin_cons_data_ne_nil _ _ _ hbne)] at hch
      exact ih (fun s hs => hall s (by simp [hs])) ch hch

theorem chain'_of_no_newline {l : List Char} (h : Char.ofNat 10 ∉ l) :
    List.Chain' (fun a b => a ≠ Char.ofNat 10 ∨ b ≠ Char.ofNat 10) l := by
  induction l with
  | nil => simp
  | cons x t ih =>
    refine List.chain'_cons'.mpr ⟨fun y _ => Or.inl ?_, ih fun hm => h (by simp [hm])⟩
    intro hx
    exact h (by simp [hx])

theorem pyJoin_head_and_chain :
    ∀ (lines : List String),
      (∀ s ∈ lines, s ≠ "" ∧ Char.ofNat 10 ∉ s.data) →
      (∀ ch, (pyJoin "\n" lines).data.head? = some ch → ch ≠ Char.ofNat 10) ∧
      List.Chain' (fun a b => a ≠ Char.ofNat 10 ∨ b ≠ Char.ofNat 10)
        (pyJoin "\n" lines).data := by
  intro lines
  induction lines with
  | nil =>
    intro _
    constructor
    · intro ch hch
      exact absurd hch (by simp [pyJoin])
    · simp [pyJoin]
  | cons a t ih =>
    intro hall
    obtain ⟨hane, hanl⟩ := hall a (by simp)
    cases t with
    | nil =>
      constructor
      · intro ch hch
        have : ch ∈ a.data := by
          cases hd : a.data with
          | nil => rw [show pyJoin "\n" [a] = a from rfl, hd] at hch; simp at hch
          | cons x u =>
            rw [show pyJoin "\n" [a] = a from rfl, hd] at hch
            have hx : x = ch := by simpa using hch
            exact hx ▸ List.mem_cons_self x u
        exact fun hx => hanl (hx ▸ this)
      · exact chain'_of_no_newline hanl
    | cons b u =>
      have iht := ih (fun s hs => hall s (by simp [hs]))
      obtain ⟨hbne, _⟩ := hall b (by simp)
      have hdata : (pyJoin "\n" (a :: b :: u)).data
          = a.data ++ (Char.ofNat 10 :: (pyJoin "\n" (b :: u)).data) := by
        rw [show pyJoin "\n" (a :: b :: u) = a ++ "\n" ++ pyJoin "\n" (b :: u) from rfl,
          String.data_append, String.data_append, List.append_assoc]
        rfl
      constructor
      · intro ch hch
        rw [hdata, List.head?_append] at hch
        cases hd : a.data with
        | nil => exact absurd (eq_empty_iff_data.mpr hd) hane
        | cons x v =>
          rw [hd] at hch
          have hx : x = ch := by simpa using hch
          intro hcnl
          refine hanl ?_
          rw [hd, ← hx.trans hcnl]
          exact List.mem_cons_self x v
      · rw [hdata]
        apply List.Chain'.append
        · exact chain'_of_no_newline hanl
        · refine List.chain'_cons'.mpr ⟨fun y hy => Or.inr (iht.1 y hy), iht.2⟩
        · intro x hx y hy
          exact Or.inl fun hxnl => hanl (hxnl ▸ List.mem_of_getLast?_eq_some hx)

theorem textPart_eq (name text : String) :
    textPart name text = "\n\n" ++ fileBlock name text := by
  unfold textPart fileBlock
  apply data_inj
  simp [String.data_append, List.append_assoc]

theorem str_append_empty (a : String) : a ++ "" = a := by
  apply data_inj
  simp [String.data_append]

theorem pyJoin_parts_eq_blocks :
    ∀ (outcomes : List (String × String)), outcomes ≠ [] →
      pyJoin "" (outcomes.map fun o => textPart o.1 o.2)
        = "\n\n" ++ pyJoin "\n\n" (outcomes.map fun o => fileBlock o.1 o.2) := by
  intro outcomes
  induction outcomes with
  | nil => intro h; exact absurd rfl h
  | cons x t ih =>
    intro _
    cases t with
    | nil =>
      show pyJoin "" [textPart x.1 x.2] = "\n\n" ++ pyJoin "\n\n" [fileBlock x.1 x.2]
      show textPart x.1 x.2 = "\n\n" ++ fileBlock x.1 x.2
      exact textPart_eq x.1 x.2
    | cons y u =>
      show textPart x.1 x.2 ++ "" ++ pyJoin "" ((y :: u).map fun o => textPart o.1 o.2)
        = "\n\n" ++ pyJoin "\n\n"
            (fileBlock x.1 x.2 :: (y :: u).map fun o => fileBlock o.1 o.2)
      rw [str_append_empty, ih (by simp), textPart_eq]
      rw [show pyJoin "\n\n"
            (fileBlock x.1 x.2 :: (y :: u).map fun o => fileBlock o.1 o.2)
          = fileBlock x.1 x.2 ++ "\n\n" ++
              pyJoin "\n\n" ((y :: u).map fun o => fileBlock o.1 o.2) from rfl]
      simp only [str_append_assoc]

theorem head?_append_left (a b : String) (h : a.data ≠ []) :
    (a ++ b).data.head? = a.data.head? := by
  rw [String.data_append]
  cases hd : a.data with
  | nil => exact absurd hd h
  | cons x u => rfl

theorem fileBlock_data_ne_nil (name text : String) : (fileBlock name text).data ≠ [] := by
  unfold fileBlock
  rw [String.data_append, String.data_append, String.data_append]
  intro h
  rcases List.append_eq_nil.mp h with ⟨h1, _⟩
  rcases List.append_eq_nil.mp h1 with ⟨h2, _⟩
  rcases List.append_eq_nil.mp h2 with ⟨h3, _⟩
  exact absurd h3 (by decide)

theorem head?_fileBlock (name text : String) :
    (fileBlock name text).data.head? = some (Char.ofNat 61) := by
  unfold fileBlock
  rw [show ("===== PLIK: " : String) ++ name ++ " =====\n\n" ++ pyStrip text
      = "===== PLIK: " ++ (name ++ (" =====\n\n" ++ pyStrip text)) by
    simp only [str_append_assoc]]
  rw [head?_append_left _ _ (by decide)]
  decide

theorem getLast?_fileBlock (name text : String) (h : pyStrip text ≠ "") :
    (fileBlock name text).data.getLast? = (pyStrip text).data.getLast? := by
  unfold fileBlock
  rw [String.data_append]
  exact List.getLast?_append_of_ne_nil _ (fun hh => h (eq_empty_iff_data.mpr hh))

theorem pyJoin_head? (sep : String) (t : List String) (b : String) (h : b.data ≠ []) :
    (pyJoin sep (b :: t)).data.head? = b.data.head? := by
  cases t with
  | nil => rfl
  | cons z w =>
    rw [show pyJoin sep (b :: z :: w) = b ++ sep ++ pyJoin sep (z :: w) from rfl]
    rw [show b ++ sep ++ pyJoin sep (z :: w) = b ++ (sep ++ pyJoin sep (z :: w)) by
      simp only [str_append_assoc]]
    exact head?_append_left _ _ h

theorem pyJoin_getLast? (sep : String) :
    ∀ (lines : List String) (h : lines ≠ []), (∀ s ∈ lines, s.data ≠ []) →
      (pyJoin sep lines).data.getLast? = ((lines.getLast h).data).getLast? := by
  intro lines
  induction lines with
  | nil => intro h; exact absurd rfl h
  | cons a t ih =>
    intro _ hall
    cases t with
    | nil => rfl
    | cons b u =>
      rw [show pyJoin sep (a :: b :: u) = a ++ sep ++ pyJoin sep (b :: u) from rfl,
        String.data_append,
        List.getLast?_append_of_ne_nil _
          (pyJoin_cons_data_ne_nil sep b u
            (fun hb => hall b (by simp) (eq_empty_iff_data.mp hb)))]
      rw [ih (by simp) (fun s hs => hall s (by simp [hs]))]
      exact congrArg (fun s : String => s.data.getLast?) (List.getLast_cons (by simp)).symm

theorem assemble_blocks (outcomes : List (String × String))
    (h1 : outcomes ≠ []) (h2 : ∀ o ∈ outcomes, pyStrip o.2 ≠ "") :
    assemble_final_text outcomes
      = pyJoin "\n\n" (outcomes.map fun o => fileBlock o.1 o.2) ++ "\n" ∧
      (∀ ch, (pyJoin "\n\n" (outcomes.map fun o => fileBlock o.1 o.2)).data.getLast?
        = some ch → ch.isWhitespace = false) := by
  have blocksNe : ∀ s ∈ outcomes.map (fun o => fileBlock o.1 o.2), s.data ≠ [] := by
    intro s hs
    rcases List.mem_map.mp hs with ⟨o, _, rfl⟩
    exact fileBlock_data_ne_nil o.1 o.2
  have mapNe : outcomes.map (fun o => fileBlock o.1 o.2) ≠ [] := by
    simpa using h1
  have hlast : ∀ ch, (pyJoin "\n\n" (outcomes.map fun o => fileBlock o.1 o.2)).data.getLast?
      = some ch → ch.isWhitespace = false := by
    intro ch hch
    rw [pyJoin_getLast? "\n\n" _ mapNe blocksNe] at hch
    have hmem := List.getLast_mem mapNe
    rcases List.mem_map.mp hmem with ⟨o, ho, heq⟩
    rw [← heq, getLast?_fileBlock o.1 o.2 (h2 o ho)] at hch
    exact getLast?_stripChars_not_ws o.2.data ch hch
  refine ⟨?_, hlast⟩
  have hhead : ∀ ch, (pyJoin "\n\n" (outcomes.map fun o => fileBlock o.1 o.2)).data.head?
      = some ch → ch.isWhitespace = false := by
    intro ch hch
    cases outcomes with
    | nil => exact absurd rfl h1
    | cons o t =>
      rw [show (o :: t).map (fun o => fileBlock o.1 o.2)
          = fileBlock o.1 o.2 :: t.map (fun o => fileBlock o.1 o.2) from rfl] at hch
      rw [pyJoin_head? _ _ _ (fileBlock_data_ne_nil o.1 o.2), head?_fileBlock] at hch
      rw [← Option.some.inj hch]
      decide
  unfold assemble_final_text
  rw [pyJoin_parts_eq_blocks outcomes h1]
  congr 1
  apply data_inj
  show stripChars (("\n\n" ++ pyJoin "\n\n"
      (outcomes.map fun o => fileBlock o.1 o.2)).data)
    = (pyJoin "\n\n" (outcomes.map fun o => fileBlock o.1 o.2)).data
  rw [show (("\n\n" : String) ++ pyJoin "\n\n"
      (outcomes.map fun o => fileBlock o.1 o.2)).data
    = [Char.ofNat 10, Char.ofNat 10] ++
      (pyJoin "\n\n" (outcomes.map fun o => fileBlock o.1 o.2)).data by
    rw [String.data_append]]
  rw [stripChars_ws_left (by decide)]
  exact stripChars_eq_self_of_ends hhead hlast

theorem append_ne_empty_left (a b : String) (h : a ≠ "") : a ++ b ≠ "" := by
  intro h0
  apply h
  rw [eq_empty_iff_data] at h0 ⊢
  rw [String.data_append] at h0
  exact (List.append_eq_nil.mp h0).1

theorem pyJoin_ne_empty (sep : String) (l : List String)
    (h1 : l ≠ []) (h2 : ∀ s ∈ l, s ≠ "") : pyJoin sep l ≠ "" := by
  cases l with
  | nil => exact absurd rfl h1
  | cons a t =>
    cases t with
    | nil => exact h2 a (by simp)
    | cons b u =>
      show a ++ sep ++ pyJoin sep (b :: u) ≠ ""
      exact append_ne_empty_left _ _ (append_ne_empty_left _ _ (h2 a (by simp)))

theorem lastEnd_cons_eq_getLast (a : Segment) (t : List Segment) (p : ℚ) :
    lastEnd p (a :: t) = ((a :: t).getLast (by simp)).endTime := by
  induction t generalizing a p with
  | nil => rfl
  | cons y u ih =>
    show lastEnd a.endTime (y :: u) = _
    rw [ih y a.endTime]
    exact congrArg Segment.endTime (List.getLast_cons (by simp)).symm

theorem deriveBatchName_parse_ok (clock : PyDateTime) (modelArg : String)
    (firstStem lastStem : String) (durations : List ℚ) (d1 d2 : PyDateTime)
    (h1 : parse_datetime_from_stem firstStem = some d1)
    (h2 : parse_datetime_from_stem lastStem = some d2) :
    deriveBatchName clock modelArg firstStem lastStem durations
      = strftimeYmdHMS d1 ++ "__"
        ++ strftimeYmdHMS (addSeconds d2 (floorSeconds (durations.getLastD 0)))
        ++ "_medium.txt" := by
  unfold deriveBatchName
  rw [h1, h2]
  rfl

theorem deriveBatchName_fallback (clock : PyDateTime) (modelArg : String)
    (firstStem lastStem : String) (durations : List ℚ)
    (h : parse_datetime_from_stem firstStem = none ∨
      parse_datetime_from_stem lastStem = none) :
    deriveBatchName clock modelArg firstStem lastStem durations
      = firstStem ++ "_len_"
        ++ pyFmt02 (Int.floor (durations.sum / 3600)) ++ "h"
        ++ pyFmt02 (Int.floor ((durations.sum
            - 3600 * ((Int.floor (durations.sum / 3600) : ℤ) : ℚ)) / 60))
        ++ "m_medium.txt" := by
  unfold deriveBatchName
  rcases h with h | h
  · rw [h]
  · rw [h]
    cases hf : parse_datetime_from_stem firstStem <;> rfl

/-- Claim C1, counterexample: the header the program writes is
`===== PLIK: <name> =====`, not `===== FILE: <name> =====` as claimed; the
batch document for files `a.mp4` (text "x") and `b.mp4` (text "y") is shown
literally and contains no `===== FILE:` header. -/
theorem C1_counterexample :
    assemble_final_text [("a.mp4", "x"), ("b.mp4", "y")]
      = "===== PLIK: a.mp4 =====\n\nx\n\n===== PLIK: b.mp4 =====\n\ny\n" ∧
    hasSub ("===== FILE: a.mp4 =====".data)
      ("===== PLIK: a.mp4 =====\n\nx\n\n===== PLIK: b.mp4 =====\n\ny\n".data)
      = false ∧
    hasSub ("===== PLIK: a.mp4 =====".data)
      ("===== PLIK: a.mp4 =====\n\nx\n\n===== PLIK: b.mp4 =====\n\ny\n".data)
      = true := by
  with_unfolding_all decide

/-- Claim C1 (amended): in batch mode, when every file's builder text is
non-empty after trimming, the persisted document is the header-plus-text
blocks in worklist order — each block `===== PLIK: <name> =====`, a blank
line, then the trimmed text — separated by blank lines, with exactly one
trailing newline (the character before the final newline is not
whitespace). -/
theorem C1_batch_document (outcomes : List (String × String))
    (h1 : outcomes ≠ []) (h2 : ∀ o ∈ outcomes, pyStrip o.2 ≠ "") :
    assemble_final_text outcomes
      = pyJoin "\n\n" (outcomes.map fun o => fileBlock o.1 o.2) ++ "\n" ∧
    ∀ ch, (pyJoin "\n\n" (outcomes.map fun o => fileBlock o.1 o.2)).data.getLast?
      = some ch → ch.isWhitespace = false :=
  assemble_blocks outcomes h1 h2

/-- Witness for C1 at a concrete batch. -/
theorem C1_witness :
    assemble_final_text [("a.mp4", " x "), ("b.mp4", "y")]
      = pyJoin "\n\n" ([("a.mp4", " x "), ("b.mp4", "y")].map
          fun o => fileBlock o.1 o.2) ++ "\n" :=
  (C1_batch_document [("a.mp4", " x "), ("b.mp4", "y")] (by simp)
    (by with_unfolding_all decide)).1

/-- Claim C2, counterexample: in single-file mode the program still prepends
the `===== PLIK: <name> =====` header, so the document is not the bare
trimmed text plus newline. -/
theorem C2_counterexample :
    assemble_final_text [("a.mp4", "x")] = "===== PLIK: a.mp4 =====\n\nx\n" ∧
    ("===== PLIK: a.mp4 =====\n\nx\n" : String) ≠ "x\n" := by
  with_unfolding_all decide

/-- Claim C2 (amended): in single-file mode (non-empty trimmed text) the
document is the `===== PLIK: <name> =====` header, a blank line, the trimmed
text, and one trailing newline — the same block layout as batch mode. -/
theorem C2_single_document (name text : String) (h : pyStrip text ≠ "") :
    assemble_final_text [(name, text)]
      = "===== PLIK: " ++ name ++ " =====\n\n" ++ pyStrip text ++ "\n" := by
  have hb := (assemble_blocks [(name, text)] (by simp) (by simpa using h)).1
  rw [hb]
  rfl

/-- Witness for C2 at a concrete input. -/
theorem C2_witness :
    pyStrip " hello " ≠ "" ∧
    assemble_final_text [("a.mp4", " hello ")]
      = "===== PLIK: a.mp4 =====\n\nhello\n" :=
  ⟨by with_unfolding_all decide,
    (C2_single_document "a.mp4" " hello " (by with_unfolding_all decide)).trans
      (by with_unfolding_all decide)⟩

/-- Claim C3, counterexample: stems that parse only under the underscore
format `%Y-%m-%d_%H-%M-%S` are still formatted with the space format
`%Y-%m-%d %H-%M-%S` in the output name, so the name is not formatted "with
the same timestamp format used for parsing". -/
theorem C3_counterexample :
    tryParseSpaceFmt "2025-11-26_16-44-59" = none ∧
    parse_datetime_from_stem "2025-11-26_16-44-59"
      = some ⟨2025, 11, 26, 16, 44, 59⟩ ∧
    deriveBatchName ⟨2031, 1, 1, 0, 0, 0⟩ "small"
        "2025-11-26_16-44-59" "2025-11-26_17-00-00" [10, 5]
      = "2025-11-26 16-44-59__2025-11-26 17-00-05_medium.txt" ∧
    ("2025-11-26 16-44-59__2025-11-26 17-00-05_medium.txt" : String)
      ≠ "2025-11-26_16-44-59__2025-11-26_17-00-05_medium.txt" := by
  with_unfolding_all decide

/-- Claim C3 (amended): when both stems parse, the name is
`<start>__<end>_medium.txt` with the end timestamp the last file's parsed
start plus its measured duration, both formatted with the fixed
`%Y-%m-%d %H-%M-%S` (space) format regardless of which accepted format
matched. -/
theorem C3_timestamp_name (clock : PyDateTime) (modelArg : String)
    (firstStem lastStem : String) (durations : List ℚ) (d1 d2 : PyDateTime)
    (h1 : parse_datetime_from_stem firstStem = some d1)
    (h2 : parse_datetime_from_stem lastStem = some d2) :
    deriveBatchName clock modelArg firstStem lastStem durations
      = strftimeYmdHMS d1 ++ "__"
        ++ strftimeYmdHMS (addSeconds d2 (floorSeconds (durations.getLastD 0)))
        ++ "_medium.txt" :=
  deriveBatchName_parse_ok clock modelArg firstStem lastStem durations d1 d2 h1 h2

/-- Witness for C3: the spec's concrete scenario 2. -/
theorem C3_witness :
    parse_datetime_from_stem "2025-11-26 16-44-59"
      = some ⟨2025, 11, 26, 16, 44, 59⟩ ∧
    deriveBatchName ⟨2031, 1, 1, 0, 0, 0⟩ "small"
        "2025-11-26 16-44-59" "2025-11-26 17-00-00" [10, 5]
      = "2025-11-26 16-44-59__2025-11-26 17-00-05_medium.txt" :=
  ⟨by with_unfolding_all decide,
    (C3_timestamp_name ⟨2031, 1, 1, 0, 0, 0⟩ "small"
        "2025-11-26 16-44-59" "2025-11-26 17-00-00" [10, 5]
        ⟨2025, 11, 26, 16, 44, 59⟩ ⟨2025, 11, 26, 17, 0, 0⟩
        (by with_unfolding_all decide) (by with_unfolding_all decide)).trans
      (by with_unfolding_all decide)⟩

/-- Claim C4: when either boundary stem fails to parse, the name falls back
to `<first stem>_len_<HH>h<MM>m_medium.txt`, with `HH` the floored total
duration in hours and `MM` the floored minutes within the hour, the total
summing every file's measured duration. -/
theorem C4_fallback_name (clock : PyDateTime) (modelArg : String)
    (firstStem lastStem : String) (durations : List ℚ)
    (h : parse_datetime_from_stem firstStem = none ∨
      parse_datetime_from_stem lastStem = none) :
    deriveBatchName clock modelArg firstStem lastStem durations
      = firstStem ++ "_len_"
        ++ pyFmt02 (Int.floor (durations.sum / 3600)) ++ "h"
        ++ pyFmt02 (Int.floor ((durations.sum
            - 3600 * ((Int.floor (durations.sum / 3600) : ℤ) : ℚ)) / 60))
        ++ "m_medium.txt" :=
  deriveBatchName_fallback clock modelArg firstStem lastStem durations h

/-- Witness for C4: the spec's concrete scenario 3. -/
theorem C4_witness :
    parse_datetime_from_stem "clip1" = none ∧
    deriveBatchName ⟨2031, 1, 1, 0, 0, 0⟩ "small"
        "clip1" "2025-11-26 17-00-00" [10, 5]
      = "clip1_len_00h00m_medium.txt" :=
  ⟨by with_unfolding_all decide,
    (C4_fallback_name ⟨2031, 1, 1, 0, 0, 0⟩ "small"
        "clip1" "2025-11-26 17-00-00" [10, 5]
        (Or.inl (by with_unfolding_all decide))).trans
      (by with_unfolding_all decide)⟩

/-- Claim C5: a segment sequence with exactly one gap at or above the
threshold — written as `A ++ B` with all gaps inside `A` and inside `B`
strictly below it — and non-empty trimmed text on both sides yields exactly
two emitted lines, split at that gap: each line is the space-join of its
side's non-empty trimmed texts, and the output is the two lines joined by
one newline. -/
theorem C5_two_lines (th : ℚ) (A B : List Segment) (hA : A ≠ []) (hB : B ≠ [])
    (hgap : (B.head hB).start - (A.getLast hA).endTime ≥ th)
    (hA2 : gapsBelow th A) (hB2 : gapsBelow th B)
    (hTA : (A.map fun s => pyStrip s.text).filter (fun x => x ≠ "") ≠ [])
    (hTB : (B.map fun s => pyStrip s.text).filter (fun x => x ≠ "") ≠ []) :
    buildLinesList th (A ++ B)
      = [pyJoin " " ((A.map fun s => pyStrip s.text).filter (fun x => x ≠ "")),
         pyJoin " " ((B.map fun s => pyStrip s.text).filter (fun x => x ≠ ""))] ∧
    build_lines_from_segments (A ++ B) th
      = pyJoin " " ((A.map fun s => pyStrip s.text).filter (fun x => x ≠ ""))
        ++ "\n"
        ++ pyJoin " " ((B.map fun s => pyStrip s.text).filter (fun x => x ≠ "")) := by
  rcases A with _ | ⟨a, atail⟩
  · exact absurd rfl hA
  rcases B with _ | ⟨b, btail⟩
  · exact absurd rfl hB
  simp only [List.map_cons] at hTA hTB ⊢
  have hA2' : allGapsLT th a.endTime atail := hA2
  have hB2' : allGapsLT th b.endTime btail := hB2
  have hmem_ne : ∀ (l : List String), ∀ s ∈ l.filter (fun x => x ≠ ""), s ≠ "" := by
    intro l s hs
    exact of_decide_eq_true (List.mem_filter.mp hs).2
  have hJ1ne : pyJoin " "
      ((pyStrip a.text :: atail.map fun s => pyStrip s.text).filter
        (fun x => x ≠ "")) ≠ "" :=
    pyJoin_ne_empty _ _ hTA (hmem_ne _)
  have hJ2ne : pyJoin " "
      ((pyStrip b.text :: btail.map fun s => pyStrip s.text).filter
        (fun x => x ≠ "")) ≠ "" :=
    pyJoin_ne_empty _ _ hTB (hmem_ne _)
  have key : buildLinesList th ((a :: atail) ++ (b :: btail))
      = [pyJoin " " ((pyStrip a.text :: atail.map fun s => pyStrip s.text).filter
          (fun x => x ≠ "")),
         pyJoin " " ((pyStrip b.text :: btail.map fun s => pyStrip s.text).filter
          (fun x => x ≠ ""))] := by
    rw [show (a :: atail) ++ (b :: btail) = a :: (atail ++ b :: btail) from rfl]
    rw [buildLinesList_eq_refLines]
    rw [refLines_append_of_allGapsLT th atail (pyStrip a.text) a.endTime
      (b :: btail) hA2']
    rw [refLines_break th _ _ b btail
      (show b.start - lastEnd a.endTime atail ≥ th by
        rw [show lastEnd a.endTime atail
            = ((a :: atail).getLast (by simp)).endTime
          from lastEnd_cons_eq_getLast a atail 0]
        exact hgap)]
    rw [show refLines th (pyStrip b.text) b.endTime btail
        = refLines th (pyStrip b.text) b.endTime (btail ++ []) by
      rw [List.append_nil]]
    rw [refLines_append_of_allGapsLT th btail (pyStrip b.text) b.endTime [] hB2']
    rw [refLines_nil]
    rw [foldl_joinSp_eq_pyJoin, foldl_joinSp_eq_pyJoin]
    rw [if_pos hJ1ne, if_pos hJ2ne]
    rfl
  refine ⟨key, ?_⟩
  show pyJoin "\n" (buildLinesList th ((a :: atail) ++ (b :: btail))) = _
  rw [key]
  rfl

/-- Witness for C5: the spec's concrete scenario 1. -/
theorem C5_witness :
    build_lines_from_segments
      ([⟨0, 1, "Hello"⟩, ⟨1.2, 2, "world"⟩] ++ [⟨5, 6, "Next"⟩]) 2
      = "Hello world\nNext" :=
  ((C5_two_lines 2 [⟨0, 1, "Hello"⟩, ⟨1.2, 2, "world"⟩] [⟨5, 6, "Next"⟩]
      (by simp) (by simp) (by with_unfolding_all decide)
      (by with_unfolding_all decide) (by with_unfolding_all decide)
      (by with_unfolding_all decide) (by with_unfolding_all decide)).2).trans
    (by with_unfolding_all decide)

/-- Claim C6, counterexample: a non-empty sequence whose single segment has
empty text has every gap (vacuously) below the threshold, yet the builder
emits zero lines, not exactly one. -/
theorem C6_counterexample :
    gapsBelow 2 [⟨0, 1, ""⟩] ∧
    buildLinesList 2 [⟨0, 1, ""⟩] = [] ∧
    build_lines_from_segments [⟨0, 1, ""⟩] 2 = "" := by
  refine ⟨trivial, ?_⟩
  constructor <;> with_unfolding_all decide

/-- Claim C6 (amended): a non-empty segment sequence with every gap strictly
below the threshold and at least one non-empty trimmed text yields exactly
one emitted line, the space-join of the non-empty trimmed texts in order
(empty texts are skipped, not joined as empty fields). -/
theorem C6_single_line (th : ℚ) (segs : List Segment) (h1 : segs ≠ [])
    (h2 : gapsBelow th segs)
    (h3 : (segs.map fun s => pyStrip s.text).filter (fun x => x ≠ "") ≠ []) :
    buildLinesList th segs
      = [pyJoin " " ((segs.map fun s => pyStrip s.text).filter (fun x => x ≠ ""))] ∧
    build_lines_from_segments segs th
      = pyJoin " " ((segs.map fun s => pyStrip s.text).filter (fun x => x ≠ "")) := by
  rcases segs with _ | ⟨a, t⟩
  · exact absurd rfl h1
  simp only [List.map_cons] at h3 ⊢
  have h2' : allGapsLT th a.endTime t := h2
  have hJne : pyJoin " "
      ((pyStrip a.text :: t.map fun s => pyStrip s.text).filter
        (fun x => x ≠ "")) ≠ "" :=
    pyJoin_ne_empty _ _ h3
      (fun s hs => of_decide_eq_true (List.mem_filter.mp hs).2)
  have key : buildLinesList th (a :: t)
      = [pyJoin " " ((pyStrip a.text :: t.map fun s => pyStrip s.text).filter
          (fun x => x ≠ ""))] := by
    rw [buildLinesList_eq_refLines]
    rw [show refLines th (pyStrip a.text) a.endTime t
        = refLines th (pyStrip a.text) a.endTime (t ++ []) by rw [List.append_nil]]
    rw [refLines_append_of_allGapsLT th t (pyStrip a.text) a.endTime [] h2']
    rw [refLines_nil]
    rw [foldl_joinSp_eq_pyJoin]
    rw [if_pos hJne]
  refine ⟨key, ?_⟩
  show pyJoin "\n" (buildLinesList th (a :: t)) = _
  rw [key]
  rfl

/-- Witness for C6 at a concrete two-segment sequence. -/
theorem C6_witness :
    build_lines_from_segments [⟨0, 1, "Hello"⟩, ⟨1.2, 2, "world"⟩] 2
      = "Hello world" :=
  ((C6_single_line 2 [⟨0, 1, "Hello"⟩, ⟨1.2, 2, "world"⟩] (by simp)
      (by with_unfolding_all decide) (by with_unfolding_all decide)).2).trans
    (by with_unfolding_all decide)

/-- Claim C7: the batch output name is a pure function of the boundary
stems and measured durations; the ambient wall-clock datetime available to
the run is never consulted, so two runs at different wall-clock times with
identical worklist and durations derive the identical name string. -/
theorem C7_naming_deterministic (clock1 clock2 : PyDateTime) (modelArg : String)
    (firstStem lastStem : String) (durations : List ℚ) :
    deriveBatchName clock1 modelArg firstStem lastStem durations
      = deriveBatchName clock2 modelArg firstStem lastStem durations := rfl

/-- Claim C8: a single input file whose lower-cased extension is not in
`VIDEO_EXTENSIONS` makes the run fail with `UnsupportedFileKind` for every
transcription oracle (so the engine is never needed) and return no output
write. -/
theorem C8_unsupported_file (name : String)
    (oracle : String → Option (List Segment × ℚ)) (clock : PyDateTime)
    (args : Args) (h : is_media_file name = false) :
    run (.file name) oracle clock args = .error .unsupportedFileKind := by
  have hsel : selectWorklist (PathKind.file name) = .error .unsupportedFileKind := by
    simp only [selectWorklist, h]
    rfl
  unfold run
  rw [hsel]

/-- Witness for C8 with a `.txt` input. -/
theorem C8_witness :
    is_media_file "notes.txt" = false ∧
    run (.file "notes.txt") (fun _ => none) ⟨2031, 1, 1, 0, 0, 0⟩
        ⟨"notes.txt", none, "small", 2⟩
      = .error .unsupportedFileKind :=
  ⟨by with_unfolding_all decide,
    C8_unsupported_file "notes.txt" (fun _ => none) ⟨2031, 1, 1, 0, 0, 0⟩
      ⟨"notes.txt", none, "small", 2⟩ (by with_unfolding_all decide)⟩

/-- Claim C9: in both naming branches the derived batch name ends with the
hard-coded literal `_medium.txt`, and the `--model` argument value has no
influence on the name. -/
theorem C9_suffix_medium (clock : PyDateTime) (m1 m2 : String)
    (firstStem lastStem : String) (durations : List ℚ) :
    deriveBatchName clock m1 firstStem lastStem durations
      = deriveBatchName clock m2 firstStem lastStem durations ∧
    ∃ p, deriveBatchName clock m1 firstStem lastStem durations
      = p ++ "_medium.txt" := by
  refine ⟨rfl, ?_⟩
  have hm : ("m" : String) ++ "_medium.txt" = "m_medium.txt" := by decide
  cases hf : parse_datetime_from_stem firstStem with
  | some d1 =>
    cases hl : parse_datetime_from_stem lastStem with
    | some d2 =>
      exact ⟨_, deriveBatchName_parse_ok clock m1 firstStem lastStem durations
        d1 d2 hf hl⟩
    | none =>
      refine ⟨firstStem ++ "_len_"
        ++ pyFmt02 (Int.floor (durations.sum / 3600)) ++ "h"
        ++ pyFmt02 (Int.floor ((durations.sum
            - 3600 * ((Int.floor (durations.sum / 3600) : ℤ) : ℚ)) / 60))
        ++ "m", ?_⟩
      rw [deriveBatchName_fallback clock m1 firstStem lastStem durations (Or.inr hl)]
      rw [str_append_assoc _ "m" "_medium.txt", hm]
  | none =>
    refine ⟨firstStem ++ "_len_"
      ++ pyFmt02 (Int.floor (durations.sum / 3600)) ++ "h"
      ++ pyFmt02 (Int.floor ((durations.sum
          - 3600 * ((Int.floor (durations.sum / 3600) : ℤ) : ℚ)) / 60))
      ++ "m", ?_⟩
    rw [deriveBatchName_fallback clock m1 firstStem lastStem durations (Or.inl hf)]
    rw [str_append_assoc _ "m" "_medium.txt", hm]

/-- Claim C10, counterexample: a segment text with an interior blank line
survives stripping, so the output can contain two consecutive newlines. -/
theorem C10_counterexample :
    build_lines_from_segments [⟨0, 1, "a\n\nb"⟩] 2 = "a\n\nb" ∧
    hasSub [Char.ofNat 10, Char.ofNat 10]
      (build_lines_from_segments [⟨0, 1, "a\n\nb"⟩] 2).data = true := by
  with_unfolding_all decide

/-- Claim C10 (amended): every emitted line is non-empty and equals its own
trim; the output never ends in a whitespace character (hence never in a
newline); and provided no segment text contains a newline character, the
output has no two consecutive newlines (no blank line). -/
theorem C10_lines_invariant (th : ℚ) (segs : List Segment) :
    (∀ x ∈ buildLinesList th segs, x ≠ "" ∧ pyStrip x = x) ∧
    (∀ ch, (build_lines_from_segments segs th).data.getLast? = some ch →
      ch.isWhitespace = false) ∧
    ((∀ s ∈ segs, Char.ofNat 10 ∉ s.text.data) →
      List.Chain' (fun a b => a ≠ Char.ofNat 10 ∨ b ≠ Char.ofNat 10)
        (build_lines_from_segments segs th).data) := by
  have hmem : ∀ x ∈ buildLinesList th segs, x ≠ "" ∧ pyStrip x = x := by
    cases segs with
    | nil => intro x hx; simp [buildLinesList] at hx
    | cons a rest =>
      rw [buildLinesList_eq_refLines]
      exact refLines_mem th rest (pyStrip a.text) a.endTime (pyStrip_idem _)
  refine ⟨hmem, ?_, ?_⟩
  · intro ch hch
    exact pyJoin_getLast_not_ws (buildLinesList th segs) hmem ch hch
  · intro hnl
    have hlines : ∀ x ∈ buildLinesList th segs,
        x ≠ "" ∧ Char.ofNat 10 ∉ x.data := by
      intro x hx
      refine ⟨(hmem x hx).1, ?_⟩
      cases segs with
      | nil => simp [buildLinesList] at hx
      | cons a rest =>
        rw [buildLinesList_eq_refLines] at hx
        exact refLines_no_newline th rest (pyStrip a.text) a.endTime
          (fun hm => hnl a (by simp) (mem_pyStrip_data hm))
          (fun s hs => hnl s (by simp [hs])) x hx
    exact (pyJoin_head_and_chain (buildLinesList th segs) hlines).2

/-- Witness for C10 at a concrete sequence. -/
theorem C10_witness :
    (∀ ch, (build_lines_from_segments
        [⟨0, 1, " Hello "⟩, ⟨5, 6, "Next"⟩] 2).data.getLast? = some ch →
      ch.isWhitespace = false) ∧
    List.Chain' (fun a b => a ≠ Char.ofNat 10 ∨ b ≠ Char.ofNat 10)
      (build_lines_from_segments [⟨0, 1, " Hello "⟩, ⟨5, 6, "Next"⟩] 2).data :=
  ⟨(C10_lines_invariant 2 [⟨0, 1, " Hello "⟩, ⟨5, 6, "Next"⟩]).2.1,
    (C10_lines_invariant 2 [⟨0, 1, " Hello "⟩, ⟨5, 6, "Next"⟩]).2.2
      (by with_unfolding_all decide)⟩

end Transcribe
